import Mathlib

/-!
Verification development for the streaming response-compression engine in
src/cpp/core/http/Response.cpp: the pull-based file chunk producer
(FileStreamResponse), the compressing producer
(ZlibCompressionStreamResponse) that drives a streaming compressor, the
in-memory range selection (Response::setRangeableFile), and the header,
cookie and error-path logic of Response.

Bytes are modelled as Nat, buffers as List Byte; an empty pull result is
Option.none. The zlib compressor itself is an external library, so it is
modelled here by a deterministic state machine that is faithful to the
documented deflate contract: it may consume input only partially per call
(at most consumeLimit bytes), it may buffer output and emit nothing under
Z_NO_FLUSH until blockSize bytes are pending, it emits at most availOut
bytes per call, it flushes everything and reports Z_STREAM_END on Z_FINISH,
and a stream error is persistent (every later deflate call on the broken
stream also fails). The compressed image of a byte sequence under this
model is a framing header (distinct per compression type) followed by the
payload bytes, and zlibDecode inverts it.
-/

set_option maxHeartbeats 1000000
set_option maxRecDepth 8192

abbrev Byte := Nat

/-- State of a FileStreamResponse (Response.cpp lines 59-122): the file
contents, the configured chunk size, the padding flag, the cumulative
bytes read (totalRead_), and the stream failbit, which C++ istreams set
once a read stops short of the requested count and which makes every
later read extract zero bytes. -/
structure FileStreamResponse where
  content : List Byte
  bufSize : Nat
  padding : Bool
  totalRead : Nat
  failed : Bool
  deriving DecidableEq

/-- Shallow embedding of FileStreamResponse::nextBuffer (Response.cpp
lines 83-113): read up to bufSize bytes at offset totalRead (zero bytes
once the failbit is set), advance totalRead by the bytes actually read,
set the failbit on a short read; on a zero-byte read emit a padding
buffer of ASCII zero characters (makePaddingBuffer, lines 50-57) when
padding is enabled and totalRead is below 1024, else emit nothing. -/
def FileStreamResponse.nextBuffer (s : FileStreamResponse) :
    Option (List Byte) × FileStreamResponse :=
  let chunk := if s.failed = true then [] else (s.content.drop s.totalRead).take s.bufSize
  let s1 : FileStreamResponse :=
    { s with totalRead := s.totalRead + chunk.length,
             failed := s.failed || decide (chunk.length < s.bufSize) }
  if chunk.length = 0 then
    if s1.totalRead < 1024 ∧ s1.padding = true then
      (some (List.replicate (1024 - s1.totalRead) 48), s1)
    else
      (none, s1)
  else
    (some chunk, s1)

/-- The two framings selected in Response.cpp (lines 124-128, 167-172):
gzip (window bits 31) and deflate (window bits 15). -/
inductive CompressionType
  | gzip
  | deflate
  deriving DecidableEq

/-- Return codes of the modelled deflate call. -/
inductive ZRet
  | ok
  | streamEnd
  | streamError
  deriving DecidableEq

/-- Behaviour parameters of the modelled compressor: the maximum number of
input bytes consumed per deflate call, the number of pending bytes the
compressor accumulates before it is willing to emit output under
Z_NO_FLUSH, and an optional call index at which the stream fails with
Z_STREAM_ERROR. The driver code is verified for every choice of these
parameters, so the theorems cover every compressor behaviour expressible
in this family. -/
structure ZParams where
  consumeLimit : Nat
  blockSize : Nat
  errorAt : Option Nat
  deriving DecidableEq

/-- Modelled z_stream state: the unconsumed input window (next_in together
with avail_in), the bytes consumed but not yet written out, the persistent
broken flag, and a call counter used only to locate the injected error. -/
structure ZState where
  input : List Byte
  pending : List Byte
  broken : Bool
  calls : Nat
  deriving DecidableEq

/-- Framing bytes prepended by the modelled compressor; distinct per
compression type so that decoding with the wrong algorithm fails. -/
def zlibHeader : CompressionType → List Byte
  | CompressionType.gzip => [31, 139]
  | CompressionType.deflate => [120]

/-- Model of one zlib deflate call. A broken stream (or the injected error
point) reports Z_STREAM_ERROR and stays broken. Otherwise up to
consumeLimit input bytes move into the pending buffer; with flush set and
all input consumed the pending bytes are flushed into the output window
(Z_STREAM_END exactly when they all fit), and without flush output is
produced only once blockSize bytes are pending. At most availOut bytes
are ever emitted. -/
def deflate (p : ZParams) (flush : Bool) (availOut : Nat) (st : ZState) :
    ZRet × ZState × List Byte :=
  if st.broken = true ∨ p.errorAt = some st.calls then
    (ZRet.streamError, { st with broken := true, calls := st.calls + 1 }, [])
  else
    let k := min p.consumeLimit st.input.length
    let pending1 := st.pending ++ st.input.take k
    let input1 := st.input.drop k
    if flush = true ∧ input1 = [] then
      ((if pending1.length ≤ availOut then ZRet.streamEnd else ZRet.ok),
        { st with input := input1,
                  pending := pending1.drop (min availOut pending1.length),
                  calls := st.calls + 1 },
        pending1.take (min availOut pending1.length))
    else if p.blockSize ≤ pending1.length then
      (ZRet.ok,
        { st with input := input1,
                  pending := pending1.drop (min availOut pending1.length),
                  calls := st.calls + 1 },
        pending1.take (min availOut pending1.length))
    else
      (ZRet.ok, { st with input := input1, pending := pending1, calls := st.calls + 1 }, [])

/-- How one iteration of the nextBuffer loop obtained its input: by
resuming a retained leftover buffer, by pulling a fresh buffer from the
wrapped file producer, or by signalling Z_FINISH after an empty pull. -/
inductive Feed
  | leftover (b : List Byte)
  | fresh (b : List Byte)
  | finish
  deriving DecidableEq

def Feed.isFinish : Feed → Bool
  | Feed.finish => true
  | _ => false

def Feed.bytes : Feed → Option (List Byte)
  | Feed.leftover b => some b
  | Feed.fresh b => some b
  | Feed.finish => none

/-- Trace record of one iteration of the do-while loop in
ZlibCompressionStreamResponse::nextBuffer: the feed event, the number of
input bytes deflate consumed, the leftover buffer retained for the next
iteration (avail_in nonzero), and the deflate return code. -/
structure Iter where
  feed : Feed
  consumed : Nat
  retained : Option (List Byte)
  res : ZRet
  deriving DecidableEq

/-- State of a ZlibCompressionStreamResponse (Response.cpp lines 132-264):
the wrapped FileStreamResponse, the modelled z_stream, the retained
partially consumed input buffer (fileBuffer_), and the finished flag. -/
structure ZlibCompressionStreamResponse where
  fileStream : FileStreamResponse
  zStream : ZState
  fileBuffer : Option (List Byte)
  finished : Bool
  deriving DecidableEq

/-- The feeding step at the top of the loop (Response.cpp lines 195-224):
if a leftover buffer exists, resume it without touching the file producer
(avail_in and next_in persist inside zlib); otherwise pull the file
producer, and on an empty pull set avail_in to 0 (the Z_FINISH signal),
else point the z_stream at the new buffer. -/
def feedPhase (s : ZlibCompressionStreamResponse) :
    Feed × ZlibCompressionStreamResponse :=
  match s.fileBuffer with
  | some fb => (Feed.leftover fb, { s with fileBuffer := none })
  | none =>
    match FileStreamResponse.nextBuffer s.fileStream with
    | (none, f1) =>
      (Feed.finish, { s with fileStream := f1, zStream := { s.zStream with input := [] } })
    | (some fb, f1) =>
      (Feed.fresh fb, { s with fileStream := f1, zStream := { s.zStream with input := fb } })

/-- The do-while loop of ZlibCompressionStreamResponse::nextBuffer
(Response.cpp lines 193-248), with explicit fuel since the C++ loop has no
syntactic termination bound. Each iteration feeds input, advances the
compressor once into the remaining output window, returns an empty result
on Z_STREAM_ERROR (lines 228-235), retains the unconsumed input buffer
when avail_in is nonzero (lines 239-244), and repeats until some output
has been written. The result carries the per-iteration trace. -/
def compLoop (p : ZParams) (bs : Nat) :
    Nat → Bool → ZlibCompressionStreamResponse → List Byte →
      Option (Option (List Byte) × ZlibCompressionStreamResponse × List Iter)
  | 0, _, _, _ => none
  | fuel + 1, flush, s, outAcc =>
    let fp := feedPhase s
    let s1 := fp.2
    let flush1 := flush || fp.1.isFinish
    let inLen := s1.zStream.input.length
    let d := deflate p flush1 (bs - outAcc.length) s1.zStream
    if d.1 = ZRet.streamError then
      some (none, { s1 with zStream := d.2.1 }, [⟨fp.1, 0, none, ZRet.streamError⟩])
    else
      let retained := if d.2.1.input = [] then none else some d.2.1.input
      let s2 := { s1 with zStream := d.2.1, fileBuffer := retained }
      let outAcc1 := outAcc ++ d.2.2
      let iter : Iter := ⟨fp.1, inLen - d.2.1.input.length, retained, d.1⟩
      if outAcc1 = [] then
        match compLoop p bs fuel flush1 s2 outAcc1 with
        | none => none
        | some (r, s3, rest) => some (r, s3, iter :: rest)
      else
        some (some outAcc1,
          (if d.1 = ZRet.streamEnd then { s2 with finished := true } else s2),
          [iter])

/-- ZlibCompressionStreamResponse::nextBuffer (Response.cpp lines
179-254): an empty result immediately once finished, otherwise the
feeding and compression loop with a fresh output buffer of bs bytes. -/
def ZlibCompressionStreamResponse.nextBuffer (p : ZParams) (bs fuel : Nat)
    (s : ZlibCompressionStreamResponse) :
    Option (Option (List Byte) × ZlibCompressionStreamResponse × List Iter) :=
  if s.finished = true then some (none, s, []) else compLoop p bs fuel false s []

/-- The producer state built by Response::setStreamFile followed by
initialize (Response.cpp lines 155-177, 830-847): a freshly opened file
stream at offset 0 and a freshly initialized z_stream whose pending
output starts with the framing header of the chosen compression type.
The padding flag is off (the round-trip theorems concern the unpadded
producer configuration). -/
def ZlibCompressionStreamResponse.initial (content : List Byte) (bsIn : Nat)
    (t : CompressionType) : ZlibCompressionStreamResponse :=
  ⟨⟨content, bsIn, false, 0, false⟩, ⟨[], zlibHeader t, false, 0⟩, none, false⟩

/-- Drive a compressing producer to exhaustion: pull until a call returns
an empty result, collecting every returned buffer in pull order. Fuel
bounds both the number of pulls and each inner loop. -/
def compRun (p : ZParams) (bs : Nat) :
    Nat → ZlibCompressionStreamResponse →
      Option (List (List Byte) × ZlibCompressionStreamResponse)
  | 0, _ => none
  | n + 1, s =>
    match ZlibCompressionStreamResponse.nextBuffer p bs (n + 1) s with
    | none => none
    | some (none, s1, _) => some ([], s1)
    | some (some buf, s1, _) =>
      match compRun p bs n s1 with
      | none => none
      | some (bufs, s2) => some (buf :: bufs, s2)

/-- Strip an expected prefix from a list, returning the remainder. -/
def stripPre {α : Type} [DecidableEq α] : List α → List α → Option (List α)
  | [], s => some s
  | _ :: _, [] => none
  | a :: as, b :: bs => if a = b then stripPre as bs else none

/-- Decompression in the model: check and remove the framing header of the
given compression type; the remainder is the payload. -/
def zlibDecode (t : CompressionType) (s : List Byte) : Option (List Byte) :=
  stripPre (zlibHeader t) s

/-- HTTP response state as used by the verified operations: status code,
the ordered multi-valued header list, the literal body (a byte string,
modelled as a list of characters), and whether a streaming producer is
installed (streamResponse_ non-null). Response() starts at status 200
(status::Ok) with no headers, no body and no producer. -/
structure HResponse where
  statusCode : Nat
  headers : List (String × String)
  body : List Char
  streamResponse : Bool
  deriving DecidableEq

/-- The state built by the Response constructor (Response.cpp line 269). -/
def emptyResponse : HResponse := ⟨200, [], [], false⟩

/-- Modelled from the spec: the header set operation of the Message base
class (not under src/) — replace the value of every existing header of
that name, else append the header at the end. -/
def setHeaderR (r : HResponse) (n v : String) : HResponse :=
  if r.headers.any (fun h => h.1 = n) then
    { r with headers := r.headers.map (fun h => if h.1 = n then (n, v) else h) }
  else
    { r with headers := r.headers ++ [(n, v)] }

/-- Modelled from the spec: the header add operation of the Message base
class (not under src/) — append, preserving order and duplicates. -/
def addHeaderR (r : HResponse) (n v : String) : HResponse :=
  { r with headers := r.headers ++ [(n, v)] }

/-- Modelled from the spec: the header remove operation of the Message
base class (not under src/) — drop every header with the given name. -/
def removeHeaderR (r : HResponse) (n : String) : HResponse :=
  { r with headers := r.headers.filter (fun h => ¬ h.1 = n) }

/-- Modelled from the spec: header lookup by name (first match), empty
string when absent. -/
def headerValueR (r : HResponse) (n : String) : String :=
  match r.headers.find? (fun h => h.1 = n) with
  | some h => h.2
  | none => ""

def hasHeaderR (r : HResponse) (n : String) : Bool :=
  r.headers.any (fun h => h.1 = n)

/-- Response::removeCachingHeaders (Response.cpp lines 629-636). -/
def removeCachingHeadersR (r : HResponse) : HResponse :=
  removeHeaderR (removeHeaderR (removeHeaderR (removeHeaderR (removeHeaderR r
    ("Expires")) ("Pragma")) ("Cache-Control")) ("Last-Modified")) ("ETag")

/-- Modelled from the spec: string_utils::htmlEscape (not under src/) —
HTML-escape a message so error bodies cannot inject markup; ampersand and
angle brackets and double quotes become character references. -/
def htmlEscapeChar (c : Char) : List Char :=
  if c = '&' then ("&amp;").toList
  else if c = '<' then ("&lt;").toList
  else if c = '>' then ("&gt;").toList
  else if c = '"' then ("&quot;").toList
  else [c]

def htmlEscapeL (s : List Char) : List Char := s.flatMap htmlEscapeChar

/-- Response::setBodyUnencoded (Response.cpp lines 543-548): remove any
Content-Encoding header, store the literal body, recompute the
Content-Length header. -/
def setBodyUnencodedM (r : HResponse) (body : List Char) : HResponse :=
  let r1 := removeHeaderR r ("Content-Encoding")
  let r2 : HResponse := { r1 with body := body }
  setHeaderR r2 ("Content-Length") (toString body.length)

/-- Response::setError (Response.cpp lines 551-557): set the status code,
clear all caching headers, set the content type to HTML, and store the
HTML-escaped message as the unencoded literal body. -/
def setErrorM (r : HResponse) (code : Nat) (message : List Char) : HResponse :=
  let r1 : HResponse := { r with statusCode := code }
  let r2 := removeCachingHeadersR r1
  let r3 := setHeaderR r2 ("Content-Type") ("text/html")
  setBodyUnencodedM r3 (htmlEscapeL message)

/-- Modelled from the spec: the literal body setter Message::setBody used
by setRangeableFile (not under src/) — store the given bytes as the body. -/
def setBodyM (r : HResponse) (body : List Char) : HResponse :=
  { r with body := body }

/-- Digits of a regex group: empty group parses to kNone (modelled as
Option.none), otherwise the decimal value. -/
def digitsVal (ds : List Char) : Option Nat :=
  if ds = [] then none else some (ds.foldl (fun a c => a * 10 + (c.toNat - 48)) 0)

def spanDigits : List Char → List Char × List Char
  | [] => ([], [])
  | c :: cs =>
    if c.isDigit then
      let r := spanDigits cs
      (c :: r.1, r.2)
    else ([], c :: cs)

/-- Full match of the Range header against the pattern bytes=(d*)-(d*)
(Response.cpp line 495): the literal prefix, a digit group, a dash, a
digit group, end of string. Returns the two groups (empty group: none). -/
def parseRange (s : String) : Option (Option Nat × Option Nat) :=
  match stripPre (("bytes=").toList) s.toList with
  | none => none
  | some rest =>
    let g1 := spanDigits rest
    match g1.2 with
    | '-' :: r2 =>
      let g2 := spanDigits r2
      if g2.2 = [] then some (digitsVal g1.1, digitsVal g2.1) else none
    | _ => none

/-- Response::setRangeableFile on in-memory contents (Response.cpp lines
486-541). On a pattern match: status 206; an omitted end group becomes
total-1; an omitted begin group reinterprets the end group as a suffix
length n, giving begin = total-n and end = total-1; Accept-Ranges and
Content-Range headers are added, gzip encoding negotiated, and the body is
the full contents when the range spans them, else the inclusive substring.
On no match: status 416 with Content-Range bytes */total. Byte offsets are
size_t in the source; the model uses Nat, and the range theorems restrict
to inputs where no size_t underflow occurs. -/
def setRangeableFileM (contents : List Char) (mimeType rangeHeader : String)
    (acceptsGzip : Bool) (r : HResponse) : HResponse :=
  let r1 := setHeaderR r ("Content-Type") mimeType
  match parseRange rangeHeader with
  | some pr =>
    let total := contents.length
    let e1 := match pr.2 with
      | none => total - 1
      | some e => e
    let be : Nat × Nat := match pr.1 with
      | none => (total - e1, total - 1)
      | some b => (b, e1)
    let r2 : HResponse := { r1 with statusCode := 206 }
    let r3 := addHeaderR r2 ("Accept-Ranges") ("bytes")
    let r4 := addHeaderR r3 ("Content-Range")
      (("bytes ") ++ toString be.1 ++ ("-") ++ toString be.2 ++ ("/") ++ toString total)
    let r5 := if acceptsGzip = true then setHeaderR r4 ("Content-Encoding") ("gzip") else r4
    if be.1 = 0 ∧ be.2 = total - 1 then setBodyM r5 contents
    else setBodyM r5 ((contents.drop be.1).take (be.2 - be.1 + 1))
  | none =>
    let r2 : HResponse := { r1 with statusCode := 416 }
    addHeaderR r2 ("Content-Range") (("bytes */") ++ toString contents.length)

/-- Cookie SameSite attribute (core/http/Cookie.hpp, not under src/). -/
inductive SameSite
  | None
  | Lax
  | Strict
  | Undefined
  deriving DecidableEq

/-- The cookie fields relevant to Response::addCookie. -/
structure Cookie where
  name : String
  value : String
  sameSite : SameSite
  deriving DecidableEq

/-- Modelled from the spec: the fixed legacy-name suffix
kLegacyCookieSuffix (declared outside src/). -/
def kLegacyCookieSuffix : String := "-legacy"

def sameSiteAttr : SameSite → String
  | SameSite.None => "; SameSite=None"
  | SameSite.Lax => "; SameSite=Lax"
  | SameSite.Strict => "; SameSite=Strict"
  | SameSite.Undefined => ""

/-- Modelled from the spec: Cookie::cookieHeaderValue (Cookie.cpp is not
under src/) — the Set-Cookie header value rendering name, value and the
SameSite attribute when set. -/
def cookieHeaderValue (c : Cookie) : String :=
  c.name ++ ("=") ++ c.value ++ sameSiteAttr c.sameSite

/-- The legacy duplicate built inside Response::addCookie (lines 395-397):
same cookie with the legacy suffix appended to the name and SameSite
cleared to Undefined. -/
def legacyCookieOf (c : Cookie) : Cookie :=
  { c with name := c.name ++ kLegacyCookieSuffix, sameSite := SameSite.Undefined }

/-- Response::addCookie (Response.cpp lines 386-400): append a Set-Cookie
header; when SameSite is None, additionally append a second Set-Cookie
header for the legacy duplicate, in that order. -/
def addCookieM (r : HResponse) (c : Cookie) : HResponse :=
  let r1 := addHeaderR r ("Set-Cookie") (cookieHeaderValue c)
  if c.sameSite = SameSite.None then
    addHeaderR r1 ("Set-Cookie") (cookieHeaderValue (legacyCookieOf c))
  else r1

def isSpaceCh (c : Char) : Bool :=
  c = ' ' ∨ c = '\t' ∨ c = '\n' ∨ c = '\r' ∨ c = '\x0b' ∨ c = '\x0c'

/-- Modelled from the spec: boost trim_copy (an external library call) —
remove leading and trailing whitespace. -/
def trimCopy (s : List Char) : List Char :=
  ((s.dropWhile isSpaceCh).reverse.dropWhile isSpaceCh).reverse

/-- Response::setFrameOptionHeaders (Response.cpp lines 341-377): empty or
none maps to DENY, same to SAMEORIGIN, any to no option; any other value
sets a Content-Security-Policy frame-ancestors header and computes
ALLOW-FROM; the X-Frame-Options header is set only when the option is
nonempty and the trimmed options value contains no space. -/
def setFrameOptionHeadersM (r : HResponse) (options : String) : HResponse :=
  let p1 : String × HResponse :=
    if options = "" ∨ options = "none" then (("DENY"), r)
    else if options = "same" then (("SAMEORIGIN"), r)
    else if options = "any" then ((""), r)
    else (("ALLOW-FROM ") ++ options,
      setHeaderR r ("Content-Security-Policy") (("frame-ancestors ") ++ options))
  if ¬ p1.1 = "" ∧ ((trimCopy options.toList).contains ' ') = false then
    setHeaderR p1.2 ("X-Frame-Options") p1.1
  else p1.2

/-- The content types excluded from compression in Response::setStreamFile
(Response.cpp lines 800-806). -/
def compressibleContentType (ct : String) : Bool :=
  ¬ (ct = "application/x-gzip" ∨ ct = "application/zip" ∨ ct = "application/x-bzip" ∨
     ct = "application/x-bzip2" ∨ ct = "application/x-tar")

/-- Response::setStreamFile (Response.cpp lines 793-850), with the file
open and compressor initialization outcome abstracted as initResult (none
for success, some message for the Error returned by initialize). The
function sets the content type, negotiates gzip before deflate for
compressible types, always sets chunked Transfer-Encoding, installs the
producer (streamResponse_), and on an initialization error calls setError
with status 500 and the error message; the Error is consumed locally, so
the caller always receives a Response value and never a raised fault. -/
def setStreamFileM (contentType : String) (acceptsGzip acceptsDeflate : Bool)
    (initResult : Option (List Char)) (r : HResponse) : HResponse :=
  let r1 := setHeaderR r ("Content-Type") contentType
  let compress := compressibleContentType contentType
  let enc : Option CompressionType :=
    if acceptsGzip = true ∧ compress = true then some CompressionType.gzip
    else if acceptsDeflate = true ∧ compress = true then some CompressionType.deflate
    else none
  let r2 := match enc with
    | some CompressionType.gzip => setHeaderR r1 ("Content-Encoding") ("gzip")
    | some CompressionType.deflate => setHeaderR r1 ("Content-Encoding") ("deflate")
    | none => r1
  let r3 := setHeaderR r2 ("Transfer-Encoding") ("chunked")
  let r4 : HResponse := { r3 with streamResponse := true }
  match initResult with
  | none => r4
  | some msg => setErrorM r4 500 msg

/-- A given number of further pulls of a FileStreamResponse all return an
empty result. -/
def fileCallsEmptyB : FileStreamResponse → Nat → Bool
  | _, 0 => true
  | s, n + 1 =>
    match FileStreamResponse.nextBuffer s with
    | (none, s1) => fileCallsEmptyB s1 n
    | (some _, _) => false

/-- Every further pull of the compressing producer, run with the given
per-call fuels, completes and returns an empty result. -/
def allCallsEmptyB (p : ZParams) (bs : Nat) :
    ZlibCompressionStreamResponse → List Nat → Bool
  | _, [] => true
  | s, g :: gs =>
    match ZlibCompressionStreamResponse.nextBuffer p bs g s with
    | some (none, s1, _) => allCallsEmptyB p bs s1 gs
    | _ => false

/-- The leftover buffer recorded after a trace of loop iterations, starting
from a given leftover. -/
def lastRet (d : Option (List Byte)) : List Iter → Option (List Byte)
  | [] => d
  | it :: rest => lastRet it.retained rest

/-- The leftover discipline of claim C2, as a predicate on an iteration
trace relative to the leftover present when the trace starts: an iteration
that starts while a leftover l is pending feeds exactly l (as a leftover
feed, so the wrapped file producer is not pulled first); an iteration with
no pending leftover never feeds a leftover; and whenever an iteration
retains a leftover, the retained buffer is nonempty and is exactly the
unconsumed suffix of the buffer that was fed to the compressor. -/
def feedsOk : Option (List Byte) → List Iter → Prop
  | _, [] => True
  | prev, it :: rest =>
    (match prev with
     | some b => it.feed = Feed.leftover b
     | none => ∀ b, ¬ it.feed = Feed.leftover b) ∧
    (∀ l, it.retained = some l →
      ¬ l = [] ∧ ∃ b, it.feed.bytes = some b ∧ l = b.drop it.consumed) ∧
    feedsOk it.retained rest

/-- The correspondence the C++ code maintains between the retained
fileBuffer_ object and the z_stream input window: when a leftover buffer
is retained, avail_in and next_in denote exactly its bytes. -/
def fileBufferConsistent (s : ZlibCompressionStreamResponse) : Prop :=
  ∀ b, s.fileBuffer = some b → s.zStream.input = b

/-- Source-state invariant for the round-trip proof: fixed configuration
(padding off), totalRead within bounds, and the failbit only ever set once
the whole file has been read. -/
def srcOk (content : List Byte) (bsIn : Nat) (f : FileStreamResponse) : Prop :=
  f.content = content ∧ f.bufSize = bsIn ∧ f.padding = false ∧
  f.totalRead ≤ content.length ∧ (f.failed = true → f.totalRead = content.length)

/-- Conservation invariant of the compressing producer: relative to the
bytes em already emitted, the pending and input windows of the compressor
hold exactly the not-yet-emitted remainder of the framing header plus the
file bytes read so far; the retained leftover matches the input window;
the stream is not broken; and once finished, everything has been read and
emitted. -/
def compInv (hd content : List Byte) (bsIn : Nat) (em : List Byte)
    (s : ZlibCompressionStreamResponse) : Prop :=
  srcOk content bsIn s.fileStream ∧
  fileBufferConsistent s ∧
  (s.fileBuffer = none → s.zStream.input = []) ∧
  s.zStream.broken = false ∧
  em ++ (s.zStream.pending ++ s.zStream.input) = hd ++ content.take s.fileStream.totalRead ∧
  (s.finished = true →
    s.zStream.pending = [] ∧ s.zStream.input = [] ∧
    s.fileStream.totalRead = content.length)

/-- A FileStreamResponse state from which every read extracts zero bytes
and the padding branch is disabled (padding off or cumulative read at
least 1024): the exhausted configuration. -/
def fileExhausted (s : FileStreamResponse) : Prop :=
  (if s.failed = true then [] else (s.content.drop s.totalRead).take s.bufSize) = [] ∧
  ¬ (s.totalRead < 1024 ∧ s.padding = true)

/-- A compressing producer that can deliver no further buffer: either the
finished flag is set, or the compressor stream is broken (every further
deflate call reports Z_STREAM_ERROR). -/
def compExhausted (s : ZlibCompressionStreamResponse) : Prop :=
  s.finished = true ∨ s.zStream.broken = true

/-- Claim C4, code evaluated at the failing input: with padding enabled,
an empty file, and buffer size 4, the first pull (the EOF pull, cumulative
read 0 below 1024) emits the 1024-byte padding buffer of ASCII zeros, and
the very next pull emits the same 1024-byte padding buffer again —
contradicting the claim that the padding buffer is emitted on that pull
and on no later pull (and hence that the total delivered is exactly 1024
bytes). In the source (Response.cpp lines 94-108), the padding branch
advances neither totalRead_ nor the padding_ flag, and after the EOF read
the stream failbit makes every later read return zero bytes, so the
padding condition holds again on every subsequent call. -/
theorem c4_padding_buffer_emitted_again :
    (FileStreamResponse.nextBuffer ⟨[], 4, true, 0, false⟩).1 =
      some (List.replicate 1024 48) ∧
    (FileStreamResponse.nextBuffer
        (FileStreamResponse.nextBuffer ⟨[], 4, true, 0, false⟩).2).1 =
      some (List.replicate 1024 48) := by
  decide

/-- Claim C8: Response::addCookie appends exactly two consecutive
Set-Cookie headers when the SameSite attribute of the cookie is None — the
modern cookie first, then the legacy duplicate whose name carries the
fixed legacy suffix and whose SameSite attribute is cleared — and exactly
one Set-Cookie header for every other SameSite value. -/
theorem c8_addCookie_samesite_none (r : HResponse) (c : Cookie) :
    (addCookieM r c).headers =
      r.headers ++
        (if c.sameSite = SameSite.None then
          [(("Set-Cookie"), cookieHeaderValue c),
           (("Set-Cookie"), cookieHeaderValue (legacyCookieOf c))]
         else [(("Set-Cookie"), cookieHeaderValue c)]) := by
  unfold addCookieM addHeaderR
  by_cases h : c.sameSite = SameSite.None <;> simp [h]

/-- Claim C9: the mapping of Response::setFrameOptionHeaders on a fresh
response — empty or none sets X-Frame-Options DENY; same sets SAMEORIGIN;
any sets no restriction header at all; any other value sets both a
Content-Security-Policy frame-ancestors header and X-Frame-Options
ALLOW-FROM, except that when the trimmed options value contains a space
the X-Frame-Options header is omitted and only the
Content-Security-Policy header is set. -/
theorem c9_frame_option_headers (options : String) :
    ((options = "" ∨ options = "none") →
      (setFrameOptionHeadersM emptyResponse options).headers =
        [(("X-Frame-Options"), ("DENY"))]) ∧
    (options = "same" →
      (setFrameOptionHeadersM emptyResponse options).headers =
        [(("X-Frame-Options"), ("SAMEORIGIN"))]) ∧
    (options = "any" →
      (setFrameOptionHeadersM emptyResponse options).headers = []) ∧
    (¬ options = "" → ¬ options = "none" → ¬ options = "same" → ¬ options = "any" →
      ((trimCopy options.toList).contains ' ') = false →
      (setFrameOptionHeadersM emptyResponse options).headers =
        [(("Content-Security-Policy"), ("frame-ancestors ") ++ options),
         (("X-Frame-Options"), ("ALLOW-FROM ") ++ options)]) ∧
    (¬ options = "" → ¬ options = "none" → ¬ options = "same" → ¬ options = "any" →
      ((trimCopy options.toList).contains ' ') = true →
      (setFrameOptionHeadersM emptyResponse options).headers =
        [(("Content-Security-Policy"), ("frame-ancestors ") ++ options)]) := by
  have hne : ¬ (("ALLOW-FROM ") ++ options = "") := by
    intro heq
    have hlen := congrArg String.length heq
    simp [String.length_append] at hlen
    exact absurd hlen.1 (by decide)
  refine ⟨?_, ?_, ?_, ?_, ?_⟩
  · rintro (h | h) <;> subst h <;>
      simp [setFrameOptionHeadersM, setHeaderR, emptyResponse] <;> decide
  · intro h; subst h
    simp [setFrameOptionHeadersM, setHeaderR, emptyResponse]
    decide
  · intro h; subst h
    simp [setFrameOptionHeadersM, setHeaderR, emptyResponse]
  · intro h1 h2 h3 h4 h5
    have h5m : ¬ (' ' ∈ trimCopy options.data) := by simpa [String.toList] using h5
    simp [setFrameOptionHeadersM, setHeaderR, emptyResponse, h1, h2, h3, h4, h5m, hne]
  · intro h1 h2 h3 h4 h5
    have h5m : (' ' ∈ trimCopy options.data) := by simpa [String.toList] using h5
    simp [setFrameOptionHeadersM, setHeaderR, emptyResponse, h1, h2, h3, h4, h5m, hne]

/-- Witness for C9 at the multi-origin input of the claim: for
a.com b.com (which contains a space after trimming) only the
Content-Security-Policy header is set and X-Frame-Options is omitted. -/
theorem c9_frame_option_headers_witness :
    ((trimCopy ("a.com b.com").toList).contains ' ') = true ∧
    (setFrameOptionHeadersM emptyResponse ("a.com b.com")).headers =
      [(("Content-Security-Policy"), ("frame-ancestors ") ++ ("a.com b.com"))] :=
  ⟨by decide,
   (c9_frame_option_headers ("a.com b.com")).2.2.2.2
     (by decide) (by decide) (by decide) (by decide) (by decide)⟩

/-- Claim C6: Response::setRangeableFile on a Range header whose begin
group is empty and whose end group holds digits n (the suffix form)
produces status 206, Content-Range bytes total-n dash total-1 slash
total, and the inclusive substring of exactly that range (of length n)
as the body. -/
theorem c6_range_suffix_form (contents : List Char) (mime rs : String) (g : Bool)
    (n : Nat) (hp : parseRange rs = some (none, some n)) (h1 : 1 ≤ n)
    (h2 : n ≤ contents.length) :
    (setRangeableFileM contents mime rs g emptyResponse).statusCode = 206 ∧
    headerValueR (setRangeableFileM contents mime rs g emptyResponse) ("Content-Range") =
      ("bytes ") ++ toString (contents.length - n) ++ ("-") ++
        toString (contents.length - 1) ++ ("/") ++ toString contents.length ∧
    (setRangeableFileM contents mime rs g emptyResponse).body =
      (contents.drop (contents.length - n)).take n ∧
    (setRangeableFileM contents mime rs g emptyResponse).body.length = n := by
  by_cases hb : contents.length - n = 0
  · have hn : n = contents.length := by omega
    cases g <;>
      simp [setRangeableFileM, hp, setHeaderR, addHeaderR, headerValueR, setBodyM,
        emptyResponse, List.find?, hb, List.take_of_length_le, hn]
  · have harith : contents.length - 1 - (contents.length - n) + 1 = n := by omega
    cases g <;>
      simp [setRangeableFileM, hp, setHeaderR, addHeaderR, headerValueR, setBodyM,
        emptyResponse, List.find?, hb, harith] <;>
      omega

/-- Witness for C6 at the example of the claim: bytes=-10 on a 100-byte
body yields status 206, Content-Range bytes 90-99/100 and a 10-byte
body. -/
theorem c6_range_suffix_form_witness :
    parseRange ("bytes=-10") = some (none, some 10) ∧
    (setRangeableFileM (List.replicate 100 'a') ("text/plain") ("bytes=-10") true
      emptyResponse).statusCode = 206 ∧
    headerValueR (setRangeableFileM (List.replicate 100 'a') ("text/plain") ("bytes=-10")
      true emptyResponse) ("Content-Range") = ("bytes 90-99/100") ∧
    (setRangeableFileM (List.replicate 100 'a') ("text/plain") ("bytes=-10") true
      emptyResponse).body.length = 10 :=
  ⟨by decide,
   (c6_range_suffix_form (List.replicate 100 'a') ("text/plain") ("bytes=-10") true 10
     (by decide) (by decide) (by decide)).1,
   by decide,
   (c6_range_suffix_form (List.replicate 100 'a') ("text/plain") ("bytes=-10") true 10
     (by decide) (by decide) (by decide)).2.2.2⟩

/-- Claim C10: Response::setRangeableFile on the Range header bytes=-
(both digit groups empty) against content of length at least 2 matches
the pattern, answers 206, and selects begin = 1 and end = total-1 (the
end group defaults to total-1 first, then the empty begin group is
computed as total - end = 1), so the body omits exactly the first byte of
the content. -/
theorem c10_range_both_groups_empty (contents : List Char) (mime rs : String)
    (g : Bool) (hp : parseRange rs = some (none, none)) (h2 : 2 ≤ contents.length) :
    (setRangeableFileM contents mime rs g emptyResponse).statusCode = 206 ∧
    headerValueR (setRangeableFileM contents mime rs g emptyResponse) ("Content-Range") =
      ("bytes ") ++ toString 1 ++ ("-") ++ toString (contents.length - 1) ++
        ("/") ++ toString contents.length ∧
    (setRangeableFileM contents mime rs g emptyResponse).body = contents.drop 1 := by
  have hb : ¬ (contents.length - (contents.length - 1) = 0) := by omega
  have hbe : contents.length - (contents.length - 1) = 1 := by omega
  have harith : contents.length - 1 - 1 + 1 = contents.length - 1 := by omega
  have htk : (contents.drop 1).take (contents.length - 1) = contents.drop 1 := by
    apply List.take_of_length_le
    simp
  cases g <;>
    simp [setRangeableFileM, hp, setHeaderR, addHeaderR, headerValueR, setBodyM,
      emptyResponse, List.find?, hb, hbe, harith, htk]

/-- Witness for C10: bytes=- on the 3-byte body abc matches the pattern,
gives 206 and the body bc (the content minus its first byte). -/
theorem c10_range_both_groups_empty_witness :
    parseRange ("bytes=-") = some (none, none) ∧
    (setRangeableFileM (("abc").toList) ("text/plain") ("bytes=-") false
      emptyResponse).statusCode = 206 ∧
    (setRangeableFileM (("abc").toList) ("text/plain") ("bytes=-") false
      emptyResponse).body = (("abc").toList).drop 1 :=
  ⟨by decide,
   (c10_range_both_groups_empty (("abc").toList) ("text/plain") ("bytes=-") false
     (by decide) (by decide)).1,
   (c10_range_both_groups_empty (("abc").toList) ("text/plain") ("bytes=-") false
     (by decide) (by decide)).2.2⟩

/-- Counterexample to claim C7 as stated: the claim says the streaming
plan is discarded on initialization failure, but at a concrete failing
input the producer handle (streamResponse_) is still installed and the
chunked Transfer-Encoding header is still set after the error conversion.
In the source (Response.cpp lines 830-849), the error path only calls
setError; nothing resets streamResponse_ or removes the Transfer-Encoding
header. -/
theorem c7_streaming_plan_not_discarded :
    (setStreamFileM ("text/plain") true false (some (("open failed").toList))
      emptyResponse).streamResponse = true ∧
    headerValueR (setStreamFileM ("text/plain") true false
      (some (("open failed").toList)) emptyResponse) ("Transfer-Encoding") =
      ("chunked") := by
  decide

/-- Claim C7 as amended: when the producer chosen by Response::setStreamFile
fails to initialize, the Response is converted into a 500 Internal Server
Error whose body carries the HTML-escaped failure message, and the caller
observes only the degraded Response value (the initialize Error is consumed
locally, never raised); however the producer handle and the chunked
Transfer-Encoding header remain set — the streaming plan is not explicitly
discarded. -/
theorem c7_init_failure_degrades_to_500 (ct : String) (g d : Bool)
    (msg : List Char) :
    (setStreamFileM ct g d (some msg) emptyResponse).statusCode = 500 ∧
    (setStreamFileM ct g d (some msg) emptyResponse).body = htmlEscapeL msg ∧
    (setStreamFileM ct g d (some msg) emptyResponse).streamResponse = true ∧
    headerValueR (setStreamFileM ct g d (some msg) emptyResponse)
      ("Transfer-Encoding") = ("chunked") := by
  cases g <;> cases d <;> by_cases hc : compressibleContentType ct = true <;>
    simp [setStreamFileM, setErrorM, setBodyUnencodedM, setHeaderR, addHeaderR,
      removeHeaderR, removeCachingHeadersR, emptyResponse, headerValueR, hc, List.find?]

theorem fileExhausted_nextBuffer (s : FileStreamResponse) (h : fileExhausted s) :
    FileStreamResponse.nextBuffer s =
      (none, { s with failed := s.failed || decide (0 < s.bufSize) }) := by
  obtain ⟨hch, hc⟩ := h
  simp only [FileStreamResponse.nextBuffer, hch]
  simp [hc]

theorem fileExhausted_preserved (s : FileStreamResponse) (h : fileExhausted s) :
    fileExhausted { s with failed := s.failed || decide (0 < s.bufSize) } := by
  obtain ⟨hch, hc⟩ := h
  constructor
  · cases hf : s.failed with
    | true => simp [hf]
    | false =>
      rw [hf] at hch
      simp only [if_neg (by simp : ¬ (false = true))] at hch
      cases hbs : s.bufSize with
      | zero => simp [hbs]
      | succ m => simp [hf, hbs]
  · simpa using hc

theorem fileNext_none_start (s s1 : FileStreamResponse)
    (h : FileStreamResponse.nextBuffer s = (none, s1)) : fileExhausted s := by
  by_cases hch : (if s.failed = true then []
      else (s.content.drop s.totalRead).take s.bufSize) = []
  · by_cases hc : (s.totalRead < 1024 ∧ s.padding = true)
    · exfalso
      simp only [FileStreamResponse.nextBuffer, hch] at h
      simp [hc] at h
    · exact ⟨hch, hc⟩
  · exfalso
    simp only [FileStreamResponse.nextBuffer] at h
    rw [if_neg (by simpa using hch)] at h
    simp at h

theorem fileNext_none_exhausted (s s1 : FileStreamResponse)
    (h : FileStreamResponse.nextBuffer s = (none, s1)) : fileExhausted s1 := by
  have hs := fileNext_none_start s s1 h
  have heq := fileExhausted_nextBuffer s hs
  rw [h] at heq
  have : s1 = { s with failed := s.failed || decide (0 < s.bufSize) } := by
    injection heq with h1 h2
  rw [this]
  exact fileExhausted_preserved s hs

theorem fileExhausted_callsEmpty : ∀ (n : Nat) (s : FileStreamResponse),
    fileExhausted s → fileCallsEmptyB s n = true := by
  intro n
  induction n with
  | zero => intro s h; rfl
  | succ m ih =>
    intro s h
    have heq := fileExhausted_nextBuffer s h
    simp only [fileCallsEmptyB, heq]
    exact ih _ (fileExhausted_preserved s h)

theorem deflate_spec (p : ZParams) (flush : Bool) (ao : Nat) (st : ZState) :
    ((st.broken = true ∨ p.errorAt = some st.calls) ∧
      deflate p flush ao st =
        (ZRet.streamError, { st with broken := true, calls := st.calls + 1 }, [])) ∨
    (¬ (st.broken = true ∨ p.errorAt = some st.calls) ∧
      ∃ res st1 out, deflate p flush ao st = (res, st1, out) ∧
        ¬ res = ZRet.streamError ∧
        st1.broken = st.broken ∧
        st1.input = st.input.drop (min p.consumeLimit st.input.length) ∧
        out ++ (st1.pending ++ st1.input) = st.pending ++ st.input ∧
        (res = ZRet.streamEnd → st1.pending = [] ∧ st1.input = [] ∧ flush = true)) := by
  by_cases hguard : (st.broken = true ∨ p.errorAt = some st.calls)
  · left
    exact ⟨hguard, by simp [deflate, hguard]⟩
  · right
    refine ⟨hguard, ?_⟩
    unfold deflate
    rw [if_neg hguard]
    by_cases hfin : (flush = true ∧ st.input.drop (min p.consumeLimit st.input.length) = [])
    · rw [if_pos hfin]
      refine ⟨_, _, _, rfl, ?_, rfl, rfl, ?_, ?_⟩
      · split <;> simp
      · rw [hfin.2]
        simp only [List.append_nil]
        rw [List.take_append_drop]
        have : st.pending ++ (st.input.take (min p.consumeLimit st.input.length)) ++
            st.input.drop (min p.consumeLimit st.input.length) = st.pending ++ st.input := by
          rw [List.append_assoc, List.take_append_drop]
        rw [hfin.2] at this
        simpa using this
      · intro hse
        split at hse
        · rename_i hle
          refine ⟨?_, hfin.2, hfin.1⟩
          have hmin : min ao (st.pending ++ st.input.take (min p.consumeLimit st.input.length)).length
              = (st.pending ++ st.input.take (min p.consumeLimit st.input.length)).length :=
            min_eq_right hle
          dsimp only
          rw [hmin, List.drop_length]
        · simp at hse
    · rw [if_neg hfin]
      by_cases hblk : p.blockSize ≤ (st.pending ++ st.input.take (min p.consumeLimit st.input.length)).length
      · rw [if_pos hblk]
        refine ⟨_, _, _, rfl, by simp, rfl, rfl, ?_, by intro hse; simp at hse⟩
        dsimp only
        rw [← List.append_assoc, List.take_append_drop]
        rw [List.append_assoc, List.take_append_drop]
      · rw [if_neg hblk]
        refine ⟨_, _, _, rfl, by simp, rfl, rfl, ?_, by intro hse; simp at hse⟩
        dsimp only
        simp only [List.nil_append]
        rw [List.append_assoc, List.take_append_drop]

theorem deflate_streamError_state (p : ZParams) (flush : Bool) (ao : Nat)
    (st st1 : ZState) (o : List Byte)
    (h : deflate p flush ao st = (ZRet.streamError, st1, o)) : st1.broken = true := by
  rcases deflate_spec p flush ao st with ⟨-, heq⟩ | ⟨-, res, st2, out, heq, hne, -⟩
  · rw [h] at heq
    simp only [Prod.mk.injEq] at heq
    rw [heq.2.1]
  · rw [h] at heq
    simp only [Prod.mk.injEq] at heq
    exact absurd heq.1.symm hne

theorem compLoop_none_broken (p : ZParams) (bs : Nat) :
    ∀ (fuel : Nat) (flush : Bool) (s : ZlibCompressionStreamResponse)
      (outAcc : List Byte) (s1 : ZlibCompressionStreamResponse) (tr : List Iter),
      compLoop p bs fuel flush s outAcc = some (none, s1, tr) →
      s1.zStream.broken = true := by
  intro fuel
  induction fuel with
  | zero =>
    intro flush s outAcc s1 tr h
    simp [compLoop] at h
  | succ n ih =>
    intro flush s outAcc s1 tr h
    rcases hfp : feedPhase s with ⟨feed, sf⟩
    simp only [compLoop, hfp] at h
    rcases hd : deflate p (flush || feed.isFinish) (bs - outAcc.length) sf.zStream
      with ⟨res, z1, out⟩
    simp only [hd] at h
    by_cases hres : res = ZRet.streamError
    · rw [if_pos hres] at h
      simp only [Option.some.injEq, Prod.mk.injEq] at h
      have hb := deflate_streamError_state p (flush || feed.isFinish)
        (bs - outAcc.length) sf.zStream z1 out (hres ▸ hd)
      rw [← h.2.1]
      simpa using hb
    · rw [if_neg hres] at h
      split at h
      · split at h
        · simp at h
        · rename_i r0 s3 rest hrec
          simp only [Option.some.injEq, Prod.mk.injEq] at h
          obtain ⟨hr0, hs3, -⟩ := h
          rw [← hs3]
          rw [hr0] at hrec
          exact ih _ _ _ _ _ hrec
      · simp at h

theorem feedPhase_spec (s : ZlibCompressionStreamResponse) :
    (∃ fb, s.fileBuffer = some fb ∧
      feedPhase s = (Feed.leftover fb, { s with fileBuffer := none })) ∨
    (s.fileBuffer = none ∧ ∃ f1, FileStreamResponse.nextBuffer s.fileStream = (none, f1) ∧
      feedPhase s =
        (Feed.finish, { s with fileStream := f1, zStream := { s.zStream with input := [] } })) ∨
    (s.fileBuffer = none ∧ ∃ fb f1,
      FileStreamResponse.nextBuffer s.fileStream = (some fb, f1) ∧
      feedPhase s =
        (Feed.fresh fb, { s with fileStream := f1, zStream := { s.zStream with input := fb } })) := by
  rcases hfb : s.fileBuffer with _ | fb
  · rcases hnb : FileStreamResponse.nextBuffer s.fileStream with ⟨ob, f1⟩
    rcases ob with _ | fb
    · exact Or.inr (Or.inl ⟨rfl, f1, rfl, by simp [feedPhase, hfb, hnb]⟩)
    · exact Or.inr (Or.inr ⟨rfl, fb, f1, rfl, by simp [feedPhase, hfb, hnb]⟩)
  · exact Or.inl ⟨fb, rfl, by simp [feedPhase, hfb]⟩

theorem compExhausted_next (p : ZParams) (bs g : Nat) (s : ZlibCompressionStreamResponse)
    (h : compExhausted s) (hg : 1 ≤ g) :
    ∃ s1 tr, ZlibCompressionStreamResponse.nextBuffer p bs g s = some (none, s1, tr) ∧
      compExhausted s1 := by
  by_cases hf : s.finished = true
  · exact ⟨s, [], by simp [ZlibCompressionStreamResponse.nextBuffer, hf], h⟩
  · have hb : s.zStream.broken = true := (or_iff_right hf).mp h
    obtain ⟨g', rfl⟩ : ∃ g', g = g' + 1 := ⟨g - 1, by omega⟩
    rcases hfp : feedPhase s with ⟨feed, sf⟩
    have hbsf : sf.zStream.broken = true ∧ sf.finished = s.finished := by
      rcases feedPhase_spec s with ⟨fb, -, hfp2⟩ | ⟨-, f1, -, hfp2⟩ | ⟨-, fb, f1, -, hfp2⟩ <;>
        rw [hfp] at hfp2 <;>
        obtain ⟨-, rfl⟩ := Prod.mk.injEq .. ▸ hfp2 <;>
        exact ⟨hb, rfl⟩
    have hde : ∀ (fl : Bool) (ao : Nat), deflate p fl ao sf.zStream =
        (ZRet.streamError, { sf.zStream with broken := true, calls := sf.zStream.calls + 1 }, []) := by
      intro fl ao
      simp [deflate, hbsf.1]
    refine ⟨{ sf with zStream := { sf.zStream with broken := true, calls := sf.zStream.calls + 1 } },
      [⟨feed, 0, none, ZRet.streamError⟩], ?_, ?_⟩
    · rw [ZlibCompressionStreamResponse.nextBuffer, if_neg hf]
      simp only [compLoop, hfp, hde]
      simp
    · right
      rfl

theorem compExhausted_allCallsEmpty (p : ZParams) (bs : Nat) :
    ∀ (gs : List Nat) (s : ZlibCompressionStreamResponse), compExhausted s →
      (∀ g ∈ gs, 1 ≤ g) → allCallsEmptyB p bs s gs = true := by
  intro gs
  induction gs with
  | nil => intro s h hgs; rfl
  | cons g gs ih =>
    intro s h hgs
    obtain ⟨s1, tr, heq, h1⟩ := compExhausted_next p bs g s h (hgs g (by simp))
    simp only [allCallsEmptyB, heq]
    exact ih s1 h1 (fun g1 hg1 => hgs g1 (by simp [hg1]))

theorem compNext_none_exhausted (p : ZParams) (bs g : Nat)
    (s s1 : ZlibCompressionStreamResponse) (tr : List Iter)
    (h : ZlibCompressionStreamResponse.nextBuffer p bs g s = some (none, s1, tr)) :
    compExhausted s1 := by
  unfold ZlibCompressionStreamResponse.nextBuffer at h
  split at h
  · rename_i hf
    simp only [Option.some.injEq, Prod.mk.injEq] at h
    left
    rw [← h.2.1]
    exact hf
  · right
    exact compLoop_none_broken p bs g false s [] s1 tr h

theorem compLoop_error_in_trace (p : ZParams) (bs : Nat) :
    ∀ (fuel : Nat) (flush : Bool) (s : ZlibCompressionStreamResponse)
      (outAcc : List Byte) (r : Option (List Byte))
      (s1 : ZlibCompressionStreamResponse) (tr : List Iter),
      compLoop p bs fuel flush s outAcc = some (r, s1, tr) →
      (∃ it ∈ tr, it.res = ZRet.streamError) →
      r = none ∧ s1.zStream.broken = true := by
  intro fuel
  induction fuel with
  | zero =>
    intro flush s outAcc r s1 tr h herr
    simp [compLoop] at h
  | succ n ih =>
    intro flush s outAcc r s1 tr h herr
    rcases hfp : feedPhase s with ⟨feed, sf⟩
    simp only [compLoop, hfp] at h
    rcases hd : deflate p (flush || feed.isFinish) (bs - outAcc.length) sf.zStream
      with ⟨res, z1, out⟩
    simp only [hd] at h
    by_cases hres : res = ZRet.streamError
    · rw [if_pos hres] at h
      simp only [Option.some.injEq, Prod.mk.injEq] at h
      have hb := deflate_streamError_state p (flush || feed.isFinish)
        (bs - outAcc.length) sf.zStream z1 out (hres ▸ hd)
      exact ⟨h.1.symm, by rw [← h.2.1]; simpa using hb⟩
    · rw [if_neg hres] at h
      split at h
      · split at h
        · simp at h
        · rename_i r0 s3 rest hrec
          simp only [Option.some.injEq, Prod.mk.injEq] at h
          obtain ⟨hr0, hs3, htr⟩ := h
          obtain ⟨it, hmem, hit⟩ := herr
          rw [← htr] at hmem
          rcases List.mem_cons.mp hmem with hx | hx
          · exfalso
            rw [hx] at hit
            exact hres hit
          · obtain ⟨h1, h2⟩ := ih _ _ _ _ _ _ hrec ⟨it, hx, hit⟩
            rw [← hr0, ← hs3]
            exact ⟨h1, h2⟩
      · rename_i hout
        simp only [Option.some.injEq, Prod.mk.injEq] at h
        obtain ⟨-, -, htr⟩ := h
        obtain ⟨it, hmem, hit⟩ := herr
        rw [← htr] at hmem
        rw [List.mem_singleton.mp hmem] at hit
        exact absurd hit hres

/-- Claim C3: for both producers, once any call to nextBuffer returns an
empty result, every subsequent call also returns an empty result,
regardless of the padding flag, file size, or the reason the empty result
was produced. For the file producer this holds for any number of further
pulls; for the compressing producer it holds for any sequence of further
pulls (each given at least one unit of loop fuel), whether the empty
result came from the finished flag or from a compressor stream error
(which leaves the z_stream persistently broken). -/
theorem c3_idempotent_exhaustion :
    (∀ (s s1 : FileStreamResponse), FileStreamResponse.nextBuffer s = (none, s1) →
      ∀ (n : Nat), fileCallsEmptyB s1 n = true) ∧
    (∀ (p : ZParams) (bs g : Nat) (s s1 : ZlibCompressionStreamResponse) (tr : List Iter),
      ZlibCompressionStreamResponse.nextBuffer p bs g s = some (none, s1, tr) →
      ∀ (gs : List Nat), (∀ g1 ∈ gs, 1 ≤ g1) → allCallsEmptyB p bs s1 gs = true) := by
  constructor
  · intro s s1 h n
    exact fileExhausted_callsEmpty n s1 (fileNext_none_exhausted s s1 h)
  · intro p bs g s s1 tr h gs hgs
    exact compExhausted_allCallsEmpty p bs gs s1 (compNext_none_exhausted p bs g s s1 tr h) hgs

/-- Witness for C3: an exhausted file producer stays empty for three more
pulls, and a finished compressing producer stays empty for two more
pulls. -/
theorem c3_idempotent_exhaustion_witness :
    fileCallsEmptyB (⟨[], 1, false, 0, true⟩ : FileStreamResponse) 3 = true ∧
    allCallsEmptyB ⟨1, 3, none⟩ 4
      ⟨⟨[], 1, false, 0, false⟩, ⟨[], [], false, 0⟩, none, true⟩ [1, 2] = true :=
  ⟨c3_idempotent_exhaustion.1 ⟨[], 1, false, 0, false⟩ ⟨[], 1, false, 0, true⟩ (by decide) 3,
   c3_idempotent_exhaustion.2 ⟨1, 3, none⟩ 4 1
     ⟨⟨[], 1, false, 0, false⟩, ⟨[], [], false, 0⟩, none, true⟩
     ⟨⟨[], 1, false, 0, false⟩, ⟨[], [], false, 0⟩, none, true⟩ [] (by decide)
     [1, 2] (by decide)⟩

/-- Claim C5: if the compressor reports a stream-internal error
(Z_STREAM_ERROR) during a pull of
ZlibCompressionStreamResponse::nextBuffer, that pull returns no buffer
(the trace records the error in place of the report that the C++ code
logs), the z_stream is left broken, and the whole stream is terminated:
every subsequent pull, with any per-call fuel of at least one, also
delivers no buffer. The persistence rests on the zlib contract that a
broken stream keeps reporting Z_STREAM_ERROR; the driver itself does not
set its finished flag on this path. -/
theorem c5_stream_error_terminates (p : ZParams) (bs fuel : Nat)
    (s s1 : ZlibCompressionStreamResponse) (r : Option (List Byte)) (tr : List Iter)
    (hc : ZlibCompressionStreamResponse.nextBuffer p bs fuel s = some (r, s1, tr))
    (herr : ∃ it ∈ tr, it.res = ZRet.streamError) :
    r = none ∧ s1.zStream.broken = true ∧
    ∀ (gs : List Nat), (∀ g ∈ gs, 1 ≤ g) → allCallsEmptyB p bs s1 gs = true := by
  unfold ZlibCompressionStreamResponse.nextBuffer at hc
  split at hc
  · exfalso
    simp only [Option.some.injEq, Prod.mk.injEq] at hc
    obtain ⟨it, hmem, -⟩ := herr
    rw [← hc.2.2] at hmem
    simp at hmem
  · obtain ⟨hr, hb⟩ := compLoop_error_in_trace p bs fuel false s [] r s1 tr hc herr
    exact ⟨hr, hb, fun gs hgs =>
      compExhausted_allCallsEmpty p bs gs s1 (Or.inr hb) hgs⟩

/-- Witness for C5: with the injected error at compressor call 0, the
first pull of a fresh producer reports the error and returns no buffer,
and the two following pulls are also empty. -/
theorem c5_stream_error_terminates_witness :
    ZlibCompressionStreamResponse.nextBuffer ⟨1, 3, some 0⟩ 4 9
      (ZlibCompressionStreamResponse.initial [5] 1 CompressionType.gzip) =
      some (none, ⟨⟨[5], 1, false, 1, false⟩, ⟨[5], [31, 139], true, 1⟩, none, false⟩,
        [⟨Feed.fresh [5], 0, none, ZRet.streamError⟩]) ∧
    allCallsEmptyB ⟨1, 3, some 0⟩ 4
      ⟨⟨[5], 1, false, 1, false⟩, ⟨[5], [31, 139], true, 1⟩, none, false⟩ [1, 2] = true :=
  ⟨by decide,
   (c5_stream_error_terminates ⟨1, 3, some 0⟩ 4 9
     (ZlibCompressionStreamResponse.initial [5] 1 CompressionType.gzip)
     ⟨⟨[5], 1, false, 1, false⟩, ⟨[5], [31, 139], true, 1⟩, none, false⟩ none
     [⟨Feed.fresh [5], 0, none, ZRet.streamError⟩] (by decide)
     ⟨⟨Feed.fresh [5], 0, none, ZRet.streamError⟩, List.mem_singleton.mpr rfl, rfl⟩).2.2
     [1, 2] (by decide)⟩

/-- The leftover discipline holds across every run of the nextBuffer
loop: the trace satisfies feedsOk relative to the leftover at entry, the
final leftover is the last one retained, and the leftover always matches
the z_stream input window. -/
theorem compLoop_feeds (p : ZParams) (bs : Nat) :
    ∀ (fuel : Nat) (flush : Bool) (s : ZlibCompressionStreamResponse) (outAcc : List Byte)
      (r : Option (List Byte)) (s1 : ZlibCompressionStreamResponse) (tr : List Iter),
      fileBufferConsistent s →
      compLoop p bs fuel flush s outAcc = some (r, s1, tr) →
      feedsOk s.fileBuffer tr ∧ s1.fileBuffer = lastRet s.fileBuffer tr ∧
        fileBufferConsistent s1 := by
  intro fuel
  induction fuel with
  | zero =>
    intro flush s outAcc r s1 tr hcons h
    simp [compLoop] at h
  | succ n ih =>
    intro flush s outAcc r s1 tr hcons h
    obtain ⟨feed, sf, hfp, hA, hB, hprev, hsfb⟩ :
        ∃ feed sf, feedPhase s = (feed, sf) ∧
          (∀ b2, feed.bytes = some b2 → sf.zStream.input = b2) ∧
          (feed.bytes = none → sf.zStream.input = []) ∧
          (match s.fileBuffer with
           | some b => feed = Feed.leftover b
           | none => ∀ b, ¬ feed = Feed.leftover b) ∧
          sf.fileBuffer = none := by
      rcases feedPhase_spec s with ⟨fb, hfb, hfp⟩ | ⟨hfb, f1, hnb, hfp⟩ |
        ⟨hfb, fb, f1, hnb, hfp⟩
      · refine ⟨_, _, hfp, ?_, ?_, ?_, rfl⟩
        · intro b2 hb2
          simp only [Feed.bytes, Option.some.injEq] at hb2
          rw [← hb2]
          exact hcons fb hfb
        · intro hb2
          simp [Feed.bytes] at hb2
        · rw [hfb]
      · refine ⟨_, _, hfp, ?_, ?_, ?_, hfb⟩
        · intro b2 hb2
          simp [Feed.bytes] at hb2
        · intro hb2
          rfl
        · rw [hfb]
          intro b
          simp
      · refine ⟨_, _, hfp, ?_, ?_, ?_, hfb⟩
        · intro b2 hb2
          simp only [Feed.bytes, Option.some.injEq] at hb2
          rw [← hb2]
        · intro hb2
          simp [Feed.bytes] at hb2
        · rw [hfb]
          intro b
          simp
    simp only [compLoop, hfp] at h
    rcases hd : deflate p (flush || feed.isFinish) (bs - outAcc.length) sf.zStream
      with ⟨res, z1, out⟩
    simp only [hd] at h
    rcases deflate_spec p (flush || feed.isFinish) (bs - outAcc.length) sf.zStream with
      ⟨hguard, heq⟩ | ⟨hguard, res2, st2, out2, heq, hne, hbrk, hinp, hconsv, hse⟩ <;>
      rw [hd] at heq <;> simp only [Prod.mk.injEq] at heq
    · -- stream error iteration
      obtain ⟨hres, hz1, -⟩ := heq
      rw [if_pos hres] at h
      simp only [Option.some.injEq, Prod.mk.injEq] at h
      obtain ⟨hr, hs1, htr⟩ := h
      refine ⟨?_, ?_, ?_⟩
      · rw [← htr]
        exact ⟨hprev, fun l hl => absurd hl (by simp), trivial⟩
      · rw [← htr, ← hs1]
        simp [lastRet, hsfb]
      · intro b hb
        rw [← hs1] at hb
        simp only [hsfb] at hb
        cases hb
    · obtain ⟨he1, he2, he3⟩ := heq
      subst he1
      subst he2
      subst he3
      rw [if_neg hne] at h
      have hexact : ∀ l, (if z1.input = [] then none else some z1.input) = some l →
          ¬ l = [] ∧ ∃ b, feed.bytes = some b ∧
            l = b.drop (sf.zStream.input.length - z1.input.length) := by
        intro l hl
        split at hl
        · cases hl
        · rename_i hnonempty
          simp only [Option.some.injEq] at hl
          rcases hfb2 : feed.bytes with _ | b
          · exfalso
            apply hnonempty
            rw [hinp, hB hfb2]
            simp
          · refine ⟨by rw [← hl]; exact hnonempty, b, rfl, ?_⟩
            have hib : sf.zStream.input = b := hA b hfb2
            have hk : min p.consumeLimit sf.zStream.input.length ≤ sf.zStream.input.length :=
              min_le_right _ _
            rw [← hl, hinp, hib]
            congr 1
            rw [List.length_drop]
            omega
      have hs2cons : fileBufferConsistent
          ⟨sf.fileStream, z1, (if z1.input = [] then none else some z1.input),
            sf.finished⟩ := by
        intro b hb
        simp only at hb
        split at hb
        · cases hb
        · simp only [Option.some.injEq] at hb
          rw [← hb]
      split at h
      · -- loop continues
        split at h
        · simp at h
        · rename_i r0 s3 rest hrec
          simp only [Option.some.injEq, Prod.mk.injEq] at h
          obtain ⟨hr, hs1, htr⟩ := h
          obtain ⟨ih1, ih2, ih3⟩ := ih _ _ _ _ _ _ hs2cons hrec
          refine ⟨?_, ?_, ?_⟩
          · rw [← htr]
            exact ⟨hprev, hexact, ih1⟩
          · rw [← htr, ← hs1, lastRet]
            exact ih2
          · rw [← hs1]
            exact ih3
      · -- loop exits with output
        simp only [Option.some.injEq, Prod.mk.injEq] at h
        obtain ⟨hr, hs1, htr⟩ := h
        refine ⟨?_, ?_, ?_⟩
        · rw [← htr]
          exact ⟨hprev, hexact, trivial⟩
        · rw [← htr, ← hs1, lastRet, lastRet]
          split <;> rfl
        · intro b hb
          rw [← hs1] at hb ⊢
          by_cases hres2 : res = ZRet.streamEnd
          · rw [if_pos hres2] at hb ⊢
            simp only at hb ⊢
            split at hb
            · cases hb
            · simp only [Option.some.injEq] at hb
              rw [← hb]
          · rw [if_neg hres2] at hb ⊢
            simp only at hb ⊢
            split at hb
            · cases hb
            · simp only [Option.some.injEq] at hb
              rw [← hb]


/-- Claim C2: in every pull of ZlibCompressionStreamResponse::nextBuffer,
whenever the compressor does not fully consume the fed input (avail_in
nonzero after the deflate step), the leftover retained for the next
feeding step is exactly the unconsumed suffix of the fed buffer (the same
bytes — pointer identity of the C++ StreamBuffer is outside a byte-level
embedding, byte-for-byte equality is what is stated), and the next feeding
step, whether in the same pull or at the start of the next pull, resumes
exactly that leftover as a leftover feed, before any new input is
requested from the wrapped file producer. The trace predicate feedsOk
states this for the iteration trace of the pull, relative to the leftover
pending at its start; the conclusion also propagates the state facts that
make the theorem applicable to the following pull. -/
theorem c2_leftover_retained (p : ZParams) (bs fuel : Nat)
    (s : ZlibCompressionStreamResponse) (r : Option (List Byte))
    (s1 : ZlibCompressionStreamResponse) (tr : List Iter)
    (hcons : fileBufferConsistent s)
    (h : ZlibCompressionStreamResponse.nextBuffer p bs fuel s = some (r, s1, tr)) :
    feedsOk s.fileBuffer tr ∧ s1.fileBuffer = lastRet s.fileBuffer tr ∧
      fileBufferConsistent s1 := by
  unfold ZlibCompressionStreamResponse.nextBuffer at h
  split at h
  · simp only [Option.some.injEq, Prod.mk.injEq] at h
    obtain ⟨-, hs1, htr⟩ := h
    rw [← htr, ← hs1]
    exact ⟨trivial, rfl, hcons⟩
  · exact compLoop_feeds p bs fuel false s [] r s1 tr hcons h

/-- Witness for C2: compressing the 2-byte file [1, 2] with consume limit
1 forces a partial consumption; the trace shows the fresh buffer [1, 2]
fed, the suffix [2] retained, and the very next iteration feeding exactly
[2] as a leftover. -/
theorem c2_leftover_retained_witness :
    ZlibCompressionStreamResponse.nextBuffer ⟨1, 100, none⟩ 4 10
        (ZlibCompressionStreamResponse.initial [1, 2] 2 CompressionType.gzip) =
      some (some [31, 139, 1, 2],
        ⟨⟨[1, 2], 2, false, 2, true⟩, ⟨[], [], false, 3⟩, none, true⟩,
        [⟨Feed.fresh [1, 2], 1, some [2], ZRet.ok⟩,
         ⟨Feed.leftover [2], 1, none, ZRet.ok⟩,
         ⟨Feed.finish, 0, none, ZRet.streamEnd⟩]) ∧
    feedsOk (ZlibCompressionStreamResponse.initial [1, 2] 2 CompressionType.gzip).fileBuffer
      [⟨Feed.fresh [1, 2], 1, some [2], ZRet.ok⟩,
       ⟨Feed.leftover [2], 1, none, ZRet.ok⟩,
       ⟨Feed.finish, 0, none, ZRet.streamEnd⟩] :=
  ⟨by decide,
   (c2_leftover_retained ⟨1, 100, none⟩ 4 10
     (ZlibCompressionStreamResponse.initial [1, 2] 2 CompressionType.gzip)
     (some [31, 139, 1, 2])
     ⟨⟨[1, 2], 2, false, 2, true⟩, ⟨[], [], false, 3⟩, none, true⟩
     [⟨Feed.fresh [1, 2], 1, some [2], ZRet.ok⟩,
      ⟨Feed.leftover [2], 1, none, ZRet.ok⟩,
      ⟨Feed.finish, 0, none, ZRet.streamEnd⟩]
     (by intro b hb; simp [ZlibCompressionStreamResponse.initial] at hb)
     (by decide)).1⟩

/-- Behaviour of the unpadded file producer under the source invariant:
every pull either returns a nonempty chunk extending the bytes read so
far, or returns empty with the whole file already read. -/
theorem fileNext_spec (content : List Byte) (bsIn : Nat) (f : FileStreamResponse)
    (hsrc : srcOk content bsIn f) (hbs : 1 ≤ bsIn) :
    (∃ ch f1, FileStreamResponse.nextBuffer f = (some ch, f1) ∧ ¬ ch = [] ∧
      srcOk content bsIn f1 ∧
      content.take f1.totalRead = content.take f.totalRead ++ ch) ∨
    (∃ f1, FileStreamResponse.nextBuffer f = (none, f1) ∧ srcOk content bsIn f1 ∧
      f1.totalRead = f.totalRead ∧ f.totalRead = content.length) := by
  obtain ⟨hcnt, hbsz, hpad, hle, hfail⟩ := hsrc
  have hclen : f.content.length = content.length := by rw [hcnt]
  cases hf : f.failed with
  | true =>
    right
    refine ⟨{ f with failed := true }, ?_, ⟨hcnt, hbsz, hpad, hle, fun _ => hfail hf⟩, rfl,
      hfail hf⟩
    simp [FileStreamResponse.nextBuffer, hf, hpad]
  | false =>
    by_cases hch : (f.content.drop f.totalRead).take f.bufSize = []
    · right
      have hrem : f.content.drop f.totalRead = [] := by
        rcases List.take_eq_nil_iff.mp hch with h0 | h0
        · exfalso
          omega
        · exact h0
      have htot : f.totalRead = content.length := by
        have hdn := List.drop_eq_nil_iff.mp hrem
        omega
      refine ⟨{ f with failed := decide (0 < f.bufSize) }, ?_,
        ⟨hcnt, hbsz, hpad, hle, fun _ => htot⟩, rfl, htot⟩
      simp [FileStreamResponse.nextBuffer, hf, hch, hpad]
    · left
      have hdropne : ¬ f.content.drop f.totalRead = [] := by
        intro hd0
        exact hch (by rw [hd0]; simp)
      have hlt : f.totalRead < f.content.length := by
        by_contra hge
        exact hdropne (List.drop_eq_nil_iff.mpr (by omega))
      have hlen2 : ((f.content.drop f.totalRead).take f.bufSize).length =
          min f.bufSize (f.content.length - f.totalRead) := by
        simp [List.length_take, List.length_drop]
      refine ⟨(f.content.drop f.totalRead).take f.bufSize,
        { f with totalRead := f.totalRead + ((f.content.drop f.totalRead).take f.bufSize).length,
                 failed := decide (((f.content.drop f.totalRead).take f.bufSize).length < f.bufSize) },
        ?_, hch, ?_, ?_⟩
      · simp [FileStreamResponse.nextBuffer, hf]
        intro hcond
        exfalso
        rcases hcond with h0 | h0 <;> omega
      · refine ⟨hcnt, hbsz, hpad, ?_, ?_⟩
        · simp only [hlen2]
          omega
        · intro hfl
          simp only [decide_eq_true_eq, hlen2] at hfl
          simp only [hlen2]
          omega
      · simp only
        rw [← hcnt, List.take_add]
        congr 1
        have hlen3 : ((f.content.drop f.totalRead).take f.bufSize).length =
            min f.bufSize (f.content.drop f.totalRead).length := List.length_take _ _
        rw [hlen3]
        rcases le_total f.bufSize (f.content.drop f.totalRead).length with hcase | hcase
        · rw [min_eq_left hcase]
        · rw [min_eq_right hcase, List.take_of_length_le hcase,
            List.take_of_length_le (le_refl _)]

/-- Conservation through the nextBuffer loop: starting from any state
satisfying the invariant, the loop either runs out of fuel or returns a
buffer, and the invariant holds again with the buffer appended to the
emitted bytes. -/
theorem compLoop_inv (p : ZParams) (bs : Nat) (hd content : List Byte) (bsIn : Nat)
    (herr : p.errorAt = none) (hbs : 1 ≤ bsIn) :
    ∀ (fuel : Nat) (flush : Bool) (s : ZlibCompressionStreamResponse) (em : List Byte),
      compInv hd content bsIn em s → s.finished = false →
      (flush = true → s.fileBuffer = none ∧ s.fileStream.totalRead = content.length) →
      compLoop p bs fuel flush s [] = none ∨
      ∃ out s1 tr, compLoop p bs fuel flush s [] = some (some out, s1, tr) ∧
        compInv hd content bsIn (em ++ out) s1 := by
  intro fuel
  induction fuel with
  | zero =>
    intro flush s em hinv hfin hflushHyp
    left
    rfl
  | succ n ih =>
    intro flush s em hinv hfin hflushHyp
    obtain ⟨hsrc0, hcons0, hnone0, hbrk0, hconsv0, hfin0⟩ := hinv
    obtain ⟨feed, sf, hfp, hsfb2, hsfin, hsbrk, hsrcSF, hconsSF, hflush1⟩ :
        ∃ feed sf, feedPhase s = (feed, sf) ∧
          sf.fileBuffer = none ∧
          sf.finished = false ∧
          sf.zStream.broken = false ∧
          srcOk content bsIn sf.fileStream ∧
          em ++ (sf.zStream.pending ++ sf.zStream.input) =
            hd ++ content.take sf.fileStream.totalRead ∧
          ((flush || feed.isFinish) = true →
            sf.zStream.input = [] ∧ sf.fileStream.totalRead = content.length) := by
      rcases feedPhase_spec s with ⟨fb, hfb, hfp⟩ | ⟨hfb, f1, hnb, hfp⟩ |
        ⟨hfb, fb, f1, hnb, hfp⟩
      · refine ⟨_, _, hfp, rfl, hfin, hbrk0, hsrc0, ?_, ?_⟩
        · exact hconsv0
        · intro h1
          simp only [Feed.isFinish, Bool.or_false] at h1
          obtain ⟨hfbn, -⟩ := hflushHyp h1
          rw [hfb] at hfbn
          cases hfbn
      · have hinp0 : s.zStream.input = [] := hnone0 hfb
        rcases fileNext_spec content bsIn s.fileStream hsrc0 hbs with
          ⟨ch, f1x, heqx, -, -, -⟩ | ⟨f1x, heqx, hsrc1, heqt, htot⟩
        · rw [hnb] at heqx
          simp at heqx
        · rw [hnb] at heqx
          simp only [Prod.mk.injEq] at heqx
          obtain ⟨-, rfl⟩ := heqx
          refine ⟨_, _, hfp, hfb, hfin, hbrk0, hsrc1, ?_, ?_⟩
          · simp only
            rw [heqt]
            simpa [hinp0] using hconsv0
          · intro h1
            exact ⟨rfl, heqt.trans htot⟩
      · have hinp0 : s.zStream.input = [] := hnone0 hfb
        rcases fileNext_spec content bsIn s.fileStream hsrc0 hbs with
          ⟨ch, f1x, heqx, hchne, hsrc1, htake⟩ | ⟨f1x, heqx, -, -, -⟩
        · rw [hnb] at heqx
          simp only [Prod.mk.injEq, Option.some.injEq] at heqx
          obtain ⟨rfl, rfl⟩ := heqx
          refine ⟨_, _, hfp, hfb, hfin, hbrk0, hsrc1, ?_, ?_⟩
          · simp only
            rw [htake]
            rw [show em ++ (s.zStream.pending ++ fb) = (em ++ (s.zStream.pending ++ [])) ++ fb
              by simp]
            rw [show hd ++ (content.take s.fileStream.totalRead ++ fb) =
              (hd ++ content.take s.fileStream.totalRead) ++ fb by simp]
            rw [← hinp0]
            rw [hconsv0]
          · intro h1
            simp only [Feed.isFinish, Bool.or_false] at h1
            obtain ⟨-, htot1⟩ := hflushHyp h1
            exfalso
            have hlen := congrArg List.length htake
            obtain ⟨-, -, -, hle1, -⟩ := hsrc1
            simp only [List.length_take, List.length_append] at hlen
            have hchlen : fb.length = 0 := by omega
            exact hchne (List.length_eq_zero.mp hchlen)
        · rw [hnb] at heqx
          simp at heqx
    simp only [compLoop, hfp, List.length_nil, Nat.sub_zero, List.nil_append]
    rcases hd2 : deflate p (flush || feed.isFinish) bs sf.zStream with ⟨res, z1, out⟩
    rcases deflate_spec p (flush || feed.isFinish) bs sf.zStream with
      ⟨hguard, -⟩ | ⟨-, res2, st2, out2, heq, hne, hbrk, hinp, hconsv, hse⟩
    · exfalso
      rw [hsbrk, herr] at hguard
      simp at hguard
    · rw [hd2] at heq
      simp only [Prod.mk.injEq] at heq
      obtain ⟨he1, he2, he3⟩ := heq
      subst he1
      subst he2
      subst he3
      rw [if_neg hne]
      by_cases hout : out = []
      · rw [if_pos hout]
        rw [hout]
        have hz1pi : z1.pending ++ z1.input = sf.zStream.pending ++ sf.zStream.input := by
          rw [hout] at hconsv
          simpa using hconsv
        have hinv2 : compInv hd content bsIn em
            ⟨sf.fileStream, z1, (if z1.input = [] then none else some z1.input),
              sf.finished⟩ := by
          refine ⟨hsrcSF, ?_, ?_, ?_, ?_, ?_⟩
          · intro b hb
            simp only at hb
            split at hb
            · cases hb
            · simp only [Option.some.injEq] at hb
              rw [← hb]
          · intro hn
            simp only at hn
            split at hn
            · rename_i hcond
              exact hcond
            · cases hn
          · simp only
            rw [hbrk]
            exact hsbrk
          · simp only
            rw [hz1pi]
            exact hconsSF
          · intro hft
            simp only at hft
            rw [hsfin] at hft
            cases hft
        have hflushIH : (flush || feed.isFinish) = true →
            (if z1.input = [] then none else some z1.input) = (none : Option (List Byte)) ∧
            sf.fileStream.totalRead = content.length := by
          intro h1
          obtain ⟨hi0, htot⟩ := hflush1 h1
          have hz1e : z1.input = [] := by
            rw [hinp, hi0]
            simp
          exact ⟨by simp [hz1e], htot⟩
        rcases ih (flush || feed.isFinish)
            ⟨sf.fileStream, z1, (if z1.input = [] then none else some z1.input),
              sf.finished⟩ em hinv2 hsfin hflushIH with hnone | ⟨out', s3, tr', heq', hinv3⟩
        · rw [hnone]
          left
          rfl
        · rw [heq']
          right
          exact ⟨out', s3, _ :: tr', rfl, hinv3⟩
      · rw [if_neg hout]
        right
        by_cases hres2 : res = ZRet.streamEnd
        · rw [if_pos hres2]
          refine ⟨out, _, _, rfl, ?_⟩
          refine ⟨hsrcSF, ?_, ?_, ?_, ?_, ?_⟩
          · intro b hb
            simp only at hb
            split at hb
            · cases hb
            · simp only [Option.some.injEq] at hb
              rw [← hb]
          · intro hn
            simp only at hn
            split at hn
            · rename_i hcond
              exact hcond
            · cases hn
          · simp only
            rw [hbrk]
            exact hsbrk
          · show em ++ out ++ (z1.pending ++ z1.input) =
              hd ++ content.take sf.fileStream.totalRead
            rw [List.append_assoc, hconsv]
            exact hconsSF
          · intro hft
            obtain ⟨hp0, hi0, hfl1⟩ := hse hres2
            exact ⟨hp0, hi0, (hflush1 hfl1).2⟩
        · rw [if_neg hres2]
          refine ⟨out, _, _, rfl, ?_⟩
          refine ⟨hsrcSF, ?_, ?_, ?_, ?_, ?_⟩
          · intro b hb
            simp only at hb
            split at hb
            · cases hb
            · simp only [Option.some.injEq] at hb
              rw [← hb]
          · intro hn
            simp only at hn
            split at hn
            · rename_i hcond
              exact hcond
            · cases hn
          · simp only
            rw [hbrk]
            exact hsbrk
          · show em ++ out ++ (z1.pending ++ z1.input) =
              hd ++ content.take sf.fileStream.totalRead
            rw [List.append_assoc, hconsv]
            exact hconsSF
          · intro hft
            simp only at hft
            rw [hsfin] at hft
            cases hft

/-- Driving the producer to exhaustion emits exactly the framing header
followed by the file bytes: by induction over the pulls, each buffer
extends the emitted prefix under the invariant, and the final empty pull
(only reachable with the finished flag, since no error is injected) forces
the pending and input windows empty and the file fully read. -/
theorem compRun_spec (p : ZParams) (bs : Nat) (hd content : List Byte) (bsIn : Nat)
    (herr : p.errorAt = none) (hbs : 1 ≤ bsIn) :
    ∀ (fuel : Nat) (em : List Byte) (s : ZlibCompressionStreamResponse)
      (bufs : List (List Byte)) (s1 : ZlibCompressionStreamResponse),
      compInv hd content bsIn em s →
      compRun p bs fuel s = some (bufs, s1) →
      em ++ bufs.flatten = hd ++ content := by
  intro fuel
  induction fuel with
  | zero =>
    intro em s bufs s1 hinv h
    simp [compRun] at h
  | succ n ih =>
    intro em s bufs s1 hinv h
    by_cases hfin : s.finished = true
    · have hnb : ZlibCompressionStreamResponse.nextBuffer p bs (n + 1) s =
          some (none, s, []) := by
        simp [ZlibCompressionStreamResponse.nextBuffer, hfin]
      simp only [compRun, hnb] at h
      simp only [Option.some.injEq, Prod.mk.injEq] at h
      obtain ⟨rfl, -⟩ := h
      obtain ⟨-, -, -, -, hconsv0, hfin0⟩ := hinv
      obtain ⟨hp0, hi0, htot⟩ := hfin0 hfin
      rw [hp0, hi0] at hconsv0
      rw [htot] at hconsv0
      simpa [List.take_length] using hconsv0
    · have hfin2 : s.finished = false := Bool.not_eq_true _ ▸ Bool.eq_false_iff.mpr hfin
      have hnb : ZlibCompressionStreamResponse.nextBuffer p bs (n + 1) s =
          compLoop p bs (n + 1) false s [] := by
        simp [ZlibCompressionStreamResponse.nextBuffer, hfin]
      rcases compLoop_inv p bs hd content bsIn herr hbs (n + 1) false s em hinv hfin2
          (fun hcontra => absurd hcontra (by simp)) with hnone | ⟨out, s2, tr, heq, hinv2⟩
      · rw [compRun, hnb, hnone] at h
        simp at h
      · rw [compRun, hnb, heq] at h
        dsimp only at h
        rcases hrec : compRun p bs n s2 with _ | ⟨bufs2, s3⟩
        · rw [hrec] at h
          simp at h
        · rw [hrec] at h
          simp only [Option.some.injEq, Prod.mk.injEq] at h
          obtain ⟨rfl, -⟩ := h
          have hrest := ih (em ++ out) s2 bufs2 s3 hinv2 hrec
          simp only [List.flatten_cons]
          rw [← List.append_assoc, hrest]

theorem stripPre_append {α : Type} [DecidableEq α] :
    ∀ (pre rest : List α), stripPre pre (pre ++ rest) = some rest := by
  intro pre
  induction pre with
  | nil => intro rest; rfl
  | cons a as ihp =>
    intro rest
    simp [stripPre, ihp]

/-- Claim C1: for every source file, every input and output chunk size
(at least 1 byte, the meaningful reading of a chunk size), both
compression types, and every compressor behaviour in the modelled family
(any per-call consume limit of at least 1 and any output block threshold),
concatenating in pull order every buffer returned by a
ZlibCompressionStreamResponse driven to exhaustion and decompressing the
concatenation with the matching algorithm reproduces the original file
bytes exactly. The producer is the unpadded configuration built by
initialize; the hypothesis names the complete run, and the witness shows a
concrete run reaching exhaustion. -/
theorem c1_compression_roundtrip (content : List Byte) (bsIn bsOut c b fuel : Nat)
    (t : CompressionType) (bufs : List (List Byte)) (s1 : ZlibCompressionStreamResponse)
    (hbsIn : 1 ≤ bsIn) (hbsOut : 1 ≤ bsOut) (hc : 1 ≤ c)
    (h : compRun ⟨c, b, none⟩ bsOut fuel
      (ZlibCompressionStreamResponse.initial content bsIn t) = some (bufs, s1)) :
    zlibDecode t bufs.flatten = some content := by
  have hinit : compInv (zlibHeader t) content bsIn []
      (ZlibCompressionStreamResponse.initial content bsIn t) := by
    refine ⟨⟨rfl, rfl, rfl, Nat.zero_le _, ?_⟩, ?_, ?_, rfl, ?_, ?_⟩
    · intro hcontra
      cases hcontra
    · intro b2 hb2
      cases hb2
    · intro hn
      rfl
    · simp [ZlibCompressionStreamResponse.initial]
    · intro hcontra
      cases hcontra
  have hrun := compRun_spec ⟨c, b, none⟩ bsOut (zlibHeader t) content bsIn rfl hbsIn
    fuel [] (ZlibCompressionStreamResponse.initial content bsIn t) bufs s1 hinit h
  simp only [List.nil_append] at hrun
  rw [zlibDecode, hrun]
  exact stripPre_append (zlibHeader t) content

/-- Witness for C1: the 3-byte file [10, 20, 30] with input chunks of 2,
output chunks of 4 and consume limit 1 is driven to exhaustion in a
concrete run whose concatenated output decodes back to the file. -/
theorem c1_compression_roundtrip_witness :
    compRun ⟨1, 3, none⟩ 4 40
        (ZlibCompressionStreamResponse.initial [10, 20, 30] 2 CompressionType.gzip) =
      some ([[31, 139, 10], [20, 30]],
        ⟨⟨[10, 20, 30], 2, false, 3, true⟩, ⟨[], [], false, 4⟩, none, true⟩) ∧
    zlibDecode CompressionType.gzip ([[31, 139, 10], [20, 30]] : List (List Byte)).flatten =
      some [10, 20, 30] :=
  ⟨by decide,
   c1_compression_roundtrip [10, 20, 30] 2 4 1 3 40 CompressionType.gzip
     [[31, 139, 10], [20, 30]]
     ⟨⟨[10, 20, 30], 2, false, 3, true⟩, ⟨[], [], false, 4⟩, none, true⟩
     (by decide) (by decide) (by decide) (by decide)⟩
